import Mathlib

/-!
Shallow embedding of the api-gateway repository's routing and resilience
core: the service registry, the round-robin load balancer, the proxy
request handler (path parsing, registry resolution, header forwarding,
circuit-breaker outcome recording) and the token-bucket rate limiter.

Each definition is translated from the Go source:
  * `Service`, `Registry.*`    — internal/service registry file
  * `roundRobin`               — internal/service load balancer file
  * `proxyResolve`, `splitN2`, `forwardHeaders`, `isHopByHopHeader`,
    `forwardOutcome`           — internal/handler/proxy.go
  * `rateLimiter`              — internal/middleware/ratelimit.go
Go `float64` arithmetic is embedded as exact rational arithmetic (ℚ);
Go machine integers as ℤ/ℕ (no overflow is reachable at the modelled
scales).  Go maps are embedded as association lists; iteration order of a
Go map is unspecified, and no theorem below depends on the list order
beyond what the map semantics (unique keys) guarantees.
-/

namespace Gateway

/-! ### Service registry (Go file `internal/service`, type `Registry`)

A `Service` mirrors the Go struct; the registry's `map[string]*Service`
is an association list with unique keys (the Go map guarantees key
uniqueness; `register` below preserves it). -/

structure Service where
  name : String
  urls : List String
  healthURL : String
  active : Bool
deriving Repr, DecidableEq

/-- The registry's service map: association list keyed by service name. -/
abbrev Registry := List (String × Service)

/-- Go map lookup `r.services[name]`. -/
def Registry.find (r : Registry) (name : String) : Option Service :=
  (List.find? (fun p => p.1 = name) r).map Prod.snd

/-- Operation `Register(name, urls, healthURL)`: unconditional insert-or-replace,
sets `Active = true`. -/
def Registry.register (r : Registry) (name : String) (urls : List String)
    (healthURL : String) : Registry :=
  (List.filter (fun p => p.1 ≠ name) r) ++
    [(name, { name := name, urls := urls, healthURL := healthURL, active := true })]

/-- Operation `Unregister(name)`: error "service not found" when absent, otherwise
delete the entry.  The Go code mutates only after the existence check, so
the returned registry on the error path is the input unchanged. -/
def Registry.unregister (r : Registry) (name : String) :
    Except String Unit × Registry :=
  match Registry.find r name with
  | none => (Except.error "service not found", r)
  | some _ => (Except.ok (), List.filter (fun p => p.1 ≠ name) r)

/-- Operation `Get(name)`: "service not found" when absent, "service is inactive"
when present with `Active = false`, otherwise the entry. -/
def Registry.get (r : Registry) (name : String) : Except String Service :=
  match Registry.find r name with
  | none => Except.error "service not found"
  | some svc =>
    if !svc.active then Except.error "service is inactive"
    else Except.ok svc

/-! ### Load balancer (Go file `internal/service`, type `LoadBalancer`)

`counters` is `map[string]int`; reading an absent key yields Go's zero
value `0`. -/

/-- The per-service cursor map `counters map[string]int`. -/
abbrev Counters := List (String × Nat)

/-- Go map read: absent key yields the zero value. -/
def Counters.read (lb : Counters) (name : String) : Nat :=
  ((List.find? (fun p => p.1 = name) lb).map Prod.snd).getD 0

/-- Go map write `lb.counters[name] = v`. -/
def Counters.write (lb : Counters) (name : String) (v : Nat) : Counters :=
  (List.filter (fun p => p.1 ≠ name) lb) ++ [(name, v)]

/-- Operation `RoundRobin(service)`: error on an empty URL list; otherwise return
`URLs[counter % len]` and store `(counter + 1) % len`. -/
def roundRobin (lb : Counters) (svc : Service) :
    Except String (String × Counters) :=
  if h : svc.urls.length = 0 then
    Except.error "no URLs available for service"
  else
    let counter := Counters.read lb svc.name
    let url := svc.urls.get ⟨counter % svc.urls.length,
      Nat.mod_lt _ (Nat.pos_of_ne_zero h)⟩
    Except.ok (url, Counters.write lb svc.name ((counter + 1) % svc.urls.length))

/-- Running `n` consecutive `RoundRobin` calls for the same service: the list of
selected URLs and the final cursor map.  A failing call selects nothing. -/
def selectN : Nat → Counters → Service → List String × Counters
  | 0, lb, _ => ([], lb)
  | n + 1, lb, svc =>
    match roundRobin lb svc with
    | Except.ok (u, lb') =>
      let r := selectN n lb' svc
      (u :: r.1, r.2)
    | Except.error _ => ([], lb)

/-! ### Path parsing and request resolution (`ProxyRequest`, proxy.go) -/

/-- Go `strings.TrimPrefix(path, "/")`: drop one leading slash. -/
def trimPrefixSlash (s : String) : String :=
  match s.toList with
  | '/' :: rest => String.mk rest
  | _ => s

/-- Split a character list at the first `/`: `none` when no separator
occurs. -/
def splitFirstSlash : List Char → Option (List Char × List Char)
  | [] => none
  | c :: cs =>
    if c = '/' then some ([], cs)
    else (splitFirstSlash cs).map (fun p => (c :: p.1, p.2))

/-- Go `strings.SplitN(s, "/", 2)`: at most two pieces, split at the first
separator; with no separator present the result is `[s]`.  Go's `SplitN`
never returns an empty slice for a positive count. -/
def splitN2 (s : String) : List String :=
  match splitFirstSlash s.toList with
  | none => [s]
  | some (pre, suf) => [String.mk pre, String.mk suf]

/-- Client-visible outcome of the resolution phase of `ProxyRequest`:
either an error response with its HTTP status, or the request is handed
to the circuit breaker with a selected target URL. -/
inductive ResolveOutcome where
  /-- Response `400 "Invalid request path"`. -/
  | badRequest
  /-- Response `404 "Service not found"` (any `registry.Get` error). -/
  | notFound
  /-- Response `503 "No available instances"` (load balancer error). -/
  | noInstances
  /-- Proceed: selected target URL and remaining path. -/
  | forward (targetURL : String) (remainingPath : String)
deriving Repr, DecidableEq

/-- The HTTP status written for each resolution outcome (a `forward`
outcome has no status yet; `0` stands for "no response written"). -/
def ResolveOutcome.status : ResolveOutcome → Nat
  | badRequest => 400
  | notFound => 404
  | noInstances => 503
  | forward _ _ => 0

/-- Resolution phase of `ProxyRequest` (proxy.go): parse the path into
`serviceName` and `remainingPath`, resolve via `Registry.Get` (mapping
any error to 404), select an instance via `RoundRobin` (mapping its error
to 503).  Returns the outcome together with the updated cursor map. -/
def proxyResolve (reg : Registry) (lb : Counters) (path : String) :
    ResolveOutcome × Counters :=
  let parts := splitN2 (trimPrefixSlash path)
  if parts.length = 0 then (ResolveOutcome.badRequest, lb)
  else
    let serviceName := parts.headD ""
    let remainingPath := if parts.length > 1 then "/" ++ (parts.getD 1 "") else ""
    match Registry.get reg serviceName with
    | Except.error _ => (ResolveOutcome.notFound, lb)
    | Except.ok svc =>
      match roundRobin lb svc with
      | Except.error _ => (ResolveOutcome.noInstances, lb)
      | Except.ok (url, lb') => (ResolveOutcome.forward url remainingPath, lb')

/-- The service name `ProxyRequest` extracts from the catch-all path. -/
def serviceNameOf (path : String) : String :=
  (splitN2 (trimPrefixSlash path)).headD ""

/-! ### Header forwarding (`forwardRequest` / `isHopByHopHeader`, proxy.go)

Go's `http.Header` is `map[string][]string` whose keys are kept in
canonical MIME form by `Add`/`Set`/`Get`; it is embedded as an
association list of `(key, values)` pairs. -/

/-- Type `Header` as an association list (key, list of values). -/
abbrev Header := List (String × List String)

/-- A byte allowed in an HTTP token (Go `validHeaderFieldByte`):
alphanumeric or one of `!#$%&'*+-.^_|~` and backquote. -/
def validHeaderFieldChar (c : Char) : Bool :=
  c.isAlphanum || c = '!' || c = '#' || c = '$' || c = '%' || c = '&' ||
    c = '\x27' || c = '*' || c = '+' || c = '-' || c = '.' || c = '^' ||
    c = '_' || c = '\x60' || c = '|' || c = '~'

/-- Canonicalise one character: uppercase at the start of a word (after a
`-`), lowercase otherwise; threads the "previous char was `-`" flag. -/
def canonicalStep (acc : List Char × Bool) (c : Char) : List Char × Bool :=
  let c' := if acc.2 then c.toUpper else c.toLower
  (acc.1 ++ [c'], c = '-')

/-- Go `textproto.CanonicalMIMEHeaderKey`: words separated by `-` get an
uppercase first letter and lowercase rest; a key containing a byte that
is not a valid token byte is returned unchanged. -/
def canonicalKey (s : String) : String :=
  if s.toList.all validHeaderFieldChar then
    String.mk (s.toList.foldl canonicalStep ([], true)).1
  else s

/-- Go `http.Header.Add(key, value)`: canonicalise the key, append the
value to the existing entry, or create the entry. -/
def headerAdd (h : Header) (key value : String) : Header :=
  let k := canonicalKey key
  if (List.find? (fun p => p.1 = k) h).isSome then
    List.map (fun p => if p.1 = k then (p.1, p.2 ++ [value]) else p) h
  else h ++ [(k, [value])]

/-- Go `http.Header.Set(key, value)`: canonicalise the key and replace
the entry by the single value. -/
def headerSet (h : Header) (key value : String) : Header :=
  let k := canonicalKey key
  (List.filter (fun p => p.1 ≠ k) h) ++ [(k, [value])]

/-- Go `http.Header.Values(key)`-style read-back: all values stored under
the canonicalised key (`none` when the header is absent). -/
def headerGet (h : Header) (key : String) : Option (List String) :=
  (List.find? (fun p => p.1 = canonicalKey key) h).map Prod.snd

/-- Go `strings.EqualFold` restricted to ASCII case folding (the
hop-by-hop names it is applied to are plain ASCII, where Unicode simple
folding and lowercase comparison coincide). -/
def eqFoldAscii (a b : String) : Bool :=
  a.toList.map Char.toLower = b.toList.map Char.toLower

/-- Predicate `isHopByHopHeader` (proxy.go): case-insensitive match
(`strings.EqualFold`) against the fixed hop-by-hop list. -/
def isHopByHopHeader (header : String) : Bool :=
  [ "Connection", "Keep-Alive", "Proxy-Authenticate", "Proxy-Authorization",
    "Te", "Trailers", "Transfer-Encoding", "Upgrade"
  ].any (fun h => eqFoldAscii header h)

/-- The header-copy loop of `forwardRequest`: every inbound entry whose
key is not hop-by-hop has each of its values `Add`ed to the outbound
request. -/
def copyHeaders (inbound : Header) : Header :=
  inbound.foldl
    (fun acc p =>
      if isHopByHopHeader p.1 then acc
      else p.2.foldl (fun a v => headerAdd a p.1 v) acc)
    []

/-- The outbound header set built by `forwardRequest`: copy non-hop-by-hop
inbound headers, then `Set` the three forwarding headers. -/
def forwardHeaders (inbound : Header) (clientIP proto host : String) : Header :=
  headerSet
    (headerSet
      (headerSet (copyHeaders inbound) "X-Forwarded-For" clientIP)
      "X-Forwarded-Proto" proto)
    "X-Forwarded-Host" host

/-! ### Circuit-breaker outcome recording (`ProxyRequest`/`forwardRequest`)

`forwardRequest` returns `(nil, err)` exactly when building the request,
the transport call (`client.Do`) or reading the response body fails; a
delivered HTTP response of ANY status is returned as a `ProxyResponse`
with `nil` error. -/

/-- What the backend exchange produced, as seen inside `forwardRequest`
after `client.Do`: either a failure of the transport (connection error,
timeout, body-read error and the like) or a delivered response. -/
inductive TransportResult where
  | transportError (msg : String)
  | delivered (status : Nat) (body : List UInt8)
deriving Repr, DecidableEq

/-- The response value `forwardRequest` builds from a delivered response. -/
structure ProxyResponse where
  statusCode : Nat
  body : List UInt8
deriving Repr, DecidableEq

/-- Outcome classification of `forwardRequest` (proxy.go): an error is
returned only for a transport failure; every delivered response — its
status inspected nowhere — becomes an `ok` result. -/
def forwardOutcome : TransportResult → Except String ProxyResponse
  | TransportResult.transportError msg => Except.error msg
  | TransportResult.delivered status body =>
    Except.ok { statusCode := status, body := body }

/-- Modelled from the spec: the consecutive-failure counter of the
external `gobreaker` circuit-breaker library (not part of this
repository's source).  Per the spec's breaker section, `Execute` "records
success/failure based on whether the operation reports failure": a
failure increments the consecutive-failure counter, a success resets it
to zero. -/
def recordOutcome (consecutiveFailures : Nat)
    (result : Except String ProxyResponse) : Nat :=
  match result with
  | Except.ok _ => 0
  | Except.error _ => consecutiveFailures + 1

/-! ### Token-bucket rate limiter (`RateLimiter`, ratelimit.go)

The Redis hash fields `tokens` and `timestamp` are strings parsed with
`strconv.ParseFloat` / `strconv.ParseInt`, both with the error discarded,
so an unparsable field yields the zero value.  A stored field is embedded
as `Option` of its parsed value, `none` meaning "not parsable as a
number"; `float64` arithmetic is embedded as exact ℚ arithmetic and Go's
`int64` timestamps as ℤ. -/

/-- Rate-limit configuration: `cfg.Requests` (bucket capacity) and
`cfg.Window.Seconds()`. -/
structure RateLimitConfig where
  requests : Int
  windowSeconds : ℚ
deriving Repr, DecidableEq

/-- The stored bucket hash, fields as parse results (`none` = the stored
string is not parsable as a number, which Go maps to the zero value). -/
structure StoredBucket where
  tokens : Option ℚ
  timestamp : Option Int
deriving Repr, DecidableEq

/-- Go's `int(x)` conversion from a `float64`: truncation toward zero. -/
def goInt (q : ℚ) : Int :=
  if 0 ≤ q then ⌊q⌋ else ⌈q⌉

/-- Go's `math.Ceil` as a `float64 → float64` map. -/
def mathCeil (q : ℚ) : ℚ := (⌈q⌉ : ℚ)

/-- Go's `math.Min`. -/
def mathMin (a b : ℚ) : ℚ := min a b

/-- The decision the middleware takes for one request. -/
inductive RLDecision where
  /-- First observation: bucket initialised, request admitted
  (`c.Next()`), no rate-limit headers set on this path. -/
  | admitNew
  /-- Rejected with 429, `Retry-After: retryAfter` and `X-RateLimit-Reset: reset`. -/
  | reject (retryAfter : Int) (reset : Int)
  /-- Admitted with `X-RateLimit-Remaining: remaining` and
  `X-RateLimit-Reset: reset`. -/
  | allowed (remaining : Int) (reset : Int)
deriving Repr, DecidableEq

/-- Whether a decision is a 429 rejection. -/
def RLDecision.isReject : RLDecision → Bool
  | RLDecision.reject _ _ => true
  | _ => false

/-- The bucket state persisted back to the store (`tokens`, `timestamp`
fields), or `none` when the middleware wrote nothing. -/
structure PersistedBucket where
  tokens : ℚ
  timestamp : Int
deriving Repr, DecidableEq

/-- One pass of the `RateLimiter` middleware (ratelimit.go) for a request
arriving at Unix time `now` with stored bucket `bucket` (`none` = the
hash is absent or the pipeline read failed, i.e. `err != nil ||
len(bucketData) == 0`).  Returns the decision and the bucket written
back. -/
def rateLimiter (cfg : RateLimitConfig) (bucket : Option StoredBucket)
    (now : Int) : RLDecision × Option PersistedBucket :=
  match bucket with
  | none =>
    (RLDecision.admitNew,
     some { tokens := ((cfg.requests - 1 : Int) : ℚ), timestamp := now })
  | some b =>
    let tokens0 : ℚ := b.tokens.getD 0
    let lastTimestamp : Int := b.timestamp.getD 0
    let elapsed : Int := now - lastTimestamp
    let refillRate : ℚ := (cfg.requests : ℚ) / cfg.windowSeconds
    let tokensToAdd : ℚ := (elapsed : ℚ) * refillRate
    let tokens : ℚ := mathMin (cfg.requests : ℚ) (tokens0 + tokensToAdd)
    if tokens < 1 then
      let retryAfter : Int := goInt (mathCeil ((1 - tokens) / refillRate))
      (RLDecision.reject retryAfter (now + retryAfter), none)
    else
      let tokens' := tokens - 1
      (RLDecision.allowed (goInt tokens') (now + goInt cfg.windowSeconds),
       some { tokens := tokens', timestamp := now })


/-! ## Association-list lemmas shared by the registry, cursor-map and
header theorems. -/

lemma find_filter_ne {β : Type} (l : List (String × β)) (a b : String)
    (hab : a ≠ b) :
    List.find? (fun p => p.1 = a) (List.filter (fun p => p.1 ≠ b) l) =
      List.find? (fun p => p.1 = a) l := by
  induction l with
  | nil => simp
  | cons p t ih =>
    by_cases hpb : p.1 = b
    · have hf : List.filter (fun q : String × β => q.1 ≠ b) (p :: t) =
          List.filter (fun q : String × β => q.1 ≠ b) t := by
        simp [List.filter_cons, hpb]
      have hpa : ¬ (p.1 = a) := fun h => hab (h ▸ hpb)
      rw [hf, ih, List.find?_cons_of_neg]
      simp [hpa]
    · have hf : List.filter (fun q : String × β => q.1 ≠ b) (p :: t) =
          p :: List.filter (fun q : String × β => q.1 ≠ b) t := by
        simp [List.filter_cons, hpb]
      by_cases hpa : p.1 = a
      · rw [hf, List.find?_cons_of_pos, List.find?_cons_of_pos] <;> simp [hpa]
      · rw [hf, List.find?_cons_of_neg, List.find?_cons_of_neg, ih] <;> simp [hpa]

lemma find_filter_self {β : Type} (l : List (String × β)) (a : String) :
    List.find? (fun p => p.1 = a) (List.filter (fun p => p.1 ≠ a) l) = none := by
  rw [List.find?_eq_none]
  intro x hx
  simp only [List.mem_filter] at hx
  simpa using hx.2

/-! ## C9 — registry unregistration -/

/-- C9: for every registry state and name, `Unregister` on an absent name
fails with "service not found" and returns the registry exactly unchanged;
on a present name it succeeds, removes exactly that entry, and every other
name's lookup is unchanged. -/
theorem c9_unregister_not_found_frame (r : Registry) (name : String) :
    (Registry.find r name = none →
      Registry.unregister r name = (Except.error "service not found", r)) ∧
    (Registry.find r name ≠ none →
      (Registry.unregister r name).1 = Except.ok () ∧
      Registry.find (Registry.unregister r name).2 name = none ∧
      ∀ other : String, other ≠ name →
        Registry.find (Registry.unregister r name).2 other =
          Registry.find r other) := by
  constructor
  · intro h0
    unfold Registry.unregister
    rw [h0]
  · intro hne
    cases h : Registry.find r name with
    | none => exact absurd h hne
    | some svc =>
      unfold Registry.unregister
      rw [h]
      refine ⟨rfl, ?_, ?_⟩
      · show (List.find? _ _).map Prod.snd = none
        rw [find_filter_self]
        rfl
      · intro other hother
        show (List.find? _ _).map Prod.snd = (List.find? _ _).map Prod.snd
        rw [find_filter_ne _ _ _ hother]

/-! ## C5 — empty service name handling -/

/-- C5: evaluation of the resolution phase at the failing input, the path
`"/"`.  The parsed service name is empty, yet the parse-guard branch
(`len(parts) == 0`, which would answer 400) is unreachable — `SplitN`
always returns at least one piece — so the handler consults the registry
with the empty name and answers 404 "Service not found", not the
BadRequest the spec prescribes for an empty service name. -/
theorem c5_slash_path_eval :
    serviceNameOf "/" = "" ∧
    (splitN2 (trimPrefixSlash "/")).length = 1 ∧
    (proxyResolve [] [] "/").1 = ResolveOutcome.notFound ∧
    (proxyResolve [] [] "/").1.status = 404 ∧
    (proxyResolve [] [] "/").1.status ≠ 400 := by
  refine ⟨by decide, by decide, by decide, by decide, by decide⟩

/-! ## C1 — circuit-breaker outcome classification -/

/-- C1 counterexample: a delivered backend response with status 500 makes
`forwardRequest` return a non-error `ProxyResponse`, so the breaker
records a success and the consecutive-failure counter resets to 0 instead
of incrementing from 3 to 4 as the claim states. -/
theorem c1_counterexample_500_is_success :
    forwardOutcome (TransportResult.delivered 500 []) =
      Except.ok { statusCode := 500, body := [] } ∧
    recordOutcome 3 (forwardOutcome (TransportResult.delivered 500 [])) = 0 ∧
    recordOutcome 3 (forwardOutcome (TransportResult.delivered 500 [])) ≠ 3 + 1 := by
  refine ⟨rfl, rfl, by decide⟩

/-- C1 amended: the breaker's recorded outcome depends only on whether the
transport call failed.  Every delivered response — any status, 500
included — is returned without error and recorded as a success (counter
resets to 0); only a transport failure is recorded as a failure
(counter increments). -/
theorem c1_breaker_records_transport_failures_only (c status : Nat)
    (body : List UInt8) (msg : String) :
    recordOutcome c (forwardOutcome (TransportResult.delivered status body)) = 0 ∧
    recordOutcome c (forwardOutcome (TransportResult.transportError msg)) = c + 1 :=
  ⟨rfl, rfl⟩

/-! ## C6 — cursor range invariant -/

lemma counters_read_write (lb : Counters) (name : String) (v : Nat) :
    Counters.read (Counters.write lb name v) name = v := by
  unfold Counters.read Counters.write
  rw [List.find?_append, find_filter_self]
  simp [List.find?]

/-- C6 counterexample: register `"s"` with three URLs, run two
`RoundRobin` selections (cursor ends at 2), then re-register `"s"` with a
single URL.  The registry now stores a one-instance service while the
cursor for `"s"` still reads 2, so the claimed invariant
`cursor ∈ [0, instance-count)` does not survive a shrinking
re-registration. -/
theorem c6_counterexample_shrinking_reregistration :
    Counters.read
      (selectN 2 [] { name := "s", urls := ["a", "b", "c"], healthURL := "", active := true }).2
      "s" = 2 ∧
    Registry.find (Registry.register (Registry.register [] "s" ["a", "b", "c"] "") "s" ["a"] "") "s" =
      some { name := "s", urls := ["a"], healthURL := "", active := true } ∧
    ¬ (Counters.read
        (selectN 2 [] { name := "s", urls := ["a", "b", "c"], healthURL := "", active := true }).2
        "s" <
       (Service.urls { name := "s", urls := ["a"], healthURL := "", active := true }).length) := by
  refine ⟨by decide, by decide, by decide⟩

/-- C6 amended: every successful `RoundRobin` call stores a cursor value
inside `[0, instance-count)` of the service it was called with — so the
invariant holds after any call sequence ending in a selection — but a
`Register` that shrinks the URL list does not touch the cursor map and
can leave the stored value at or above the new instance count until the
next selection rewrites it. -/
theorem c6_roundrobin_restores_cursor_invariant (lb : Counters) (svc : Service)
    (u : String) (lb' : Counters)
    (h : roundRobin lb svc = Except.ok (u, lb')) :
    Counters.read lb' svc.name < svc.urls.length := by
  unfold roundRobin at h
  by_cases h0 : svc.urls.length = 0
  · rw [dif_pos h0] at h
    cases h
  · rw [dif_neg h0] at h
    cases h
    rw [counters_read_write]
    exact Nat.mod_lt _ (Nat.pos_of_ne_zero h0)

/-- C6 witness: the amended theorem applied to a concrete selection on a
two-instance service. -/
theorem c6_roundrobin_restores_cursor_invariant_witness :
    Counters.read [("s", 1)] "s" < (["a", "b"] : List String).length :=
  c6_roundrobin_restores_cursor_invariant []
    { name := "s", urls := ["a", "b"], healthURL := "", active := true }
    "a" [("s", 1)] rfl

/-! ## C3 — client-visible statuses of resolution failures -/

lemma splitN2_ne_nil (s : String) : splitN2 s ≠ [] := by
  unfold splitN2
  cases h : splitFirstSlash s.toList with
  | none => simp
  | some p =>
    obtain ⟨pre, suf⟩ := p
    simp

/-- C3 counterexample: a registry holding `"s"` as a present but inactive
service answers 404 (the handler maps every `Get` error to "Service not
found"), not the 503 the claim predicts for the inactive cause. -/
theorem c3_counterexample_inactive_gets_404 :
    Registry.find [("s", { name := "s", urls := ["u"], healthURL := "", active := false })] "s" =
      some { name := "s", urls := ["u"], healthURL := "", active := false } ∧
    (proxyResolve [("s", { name := "s", urls := ["u"], healthURL := "", active := false })] [] "/s/x").1.status = 404 ∧
    (proxyResolve [("s", { name := "s", urls := ["u"], healthURL := "", active := false })] [] "/s/x").1.status ≠ 503 := by
  refine ⟨by decide, by decide, by decide⟩

/-- C3 amended: an absent service name and a present-but-inactive service
both produce the same client-visible 404 "Service not found" (the handler
does not distinguish the two `Get` failure causes); 503 "No available
instances" is produced one step later, when the resolved service's URL
list is empty. -/
theorem c3_resolution_failure_statuses (reg : Registry) (lb : Counters)
    (path : String) :
    (Registry.find reg (serviceNameOf path) = none →
      (proxyResolve reg lb path).1 = ResolveOutcome.notFound ∧
      (proxyResolve reg lb path).1.status = 404) ∧
    (∀ svc : Service, Registry.find reg (serviceNameOf path) = some svc →
      svc.active = false →
      (proxyResolve reg lb path).1 = ResolveOutcome.notFound ∧
      (proxyResolve reg lb path).1.status = 404) ∧
    (∀ svc : Service, Registry.find reg (serviceNameOf path) = some svc →
      svc.active = true → svc.urls = [] →
      (proxyResolve reg lb path).1 = ResolveOutcome.noInstances ∧
      (proxyResolve reg lb path).1.status = 503) := by
  have hne : ¬ ((splitN2 (trimPrefixSlash path)).length = 0) := by
    simpa [List.length_eq_zero] using splitN2_ne_nil (trimPrefixSlash path)
  have hsn : (splitN2 (trimPrefixSlash path)).headD "" = serviceNameOf path := rfl
  refine ⟨?_, ?_, ?_⟩
  · intro h
    have h' : Registry.find reg ((splitN2 (trimPrefixSlash path)).headD "") = none := h
    rw [List.headD_eq_head?_getD] at h'
    simp [proxyResolve, Registry.get, hne, h', ResolveOutcome.status]
  · intro svc hfind hact
    have h' : Registry.find reg ((splitN2 (trimPrefixSlash path)).headD "") = some svc := hfind
    rw [List.headD_eq_head?_getD] at h'
    simp [proxyResolve, Registry.get, hne, h', hact, ResolveOutcome.status]
  · intro svc hfind hact hurls
    have h' : Registry.find reg ((splitN2 (trimPrefixSlash path)).headD "") = some svc := hfind
    rw [List.headD_eq_head?_getD] at h'
    simp [proxyResolve, Registry.get, roundRobin, hne, h', hact, hurls, ResolveOutcome.status]

/-- C3 witness: the amended theorem applied to a concrete registry, with
an absent name, an inactive entry and an empty-URL entry. -/
theorem c3_resolution_failure_statuses_witness :
    (proxyResolve [] [] "/gone/x").1.status = 404 ∧
    (proxyResolve [("s", { name := "s", urls := ["u"], healthURL := "", active := false })] [] "/s/x").1.status = 404 ∧
    (proxyResolve [("e", { name := "e", urls := [], healthURL := "", active := true })] [] "/e/x").1.status = 503 :=
  ⟨((c3_resolution_failure_statuses [] [] "/gone/x").1 (by decide)).2,
   ((c3_resolution_failure_statuses
      [("s", { name := "s", urls := ["u"], healthURL := "", active := false })] [] "/s/x").2.1
      { name := "s", urls := ["u"], healthURL := "", active := false } (by decide) rfl).2,
   ((c3_resolution_failure_statuses
      [("e", { name := "e", urls := [], healthURL := "", active := true })] [] "/e/x").2.2
      { name := "e", urls := [], healthURL := "", active := true } (by decide) rfl rfl).2⟩

/-- C9 witness: the C9 theorem applied to a concrete one-entry registry
and an absent name. -/
theorem c9_unregister_witness :
    Registry.unregister [("a", { name := "a", urls := ["u"], healthURL := "", active := true })] "b" =
      (Except.error "service not found",
       [("a", { name := "a", urls := ["u"], healthURL := "", active := true })]) :=
  (c9_unregister_not_found_frame
    [("a", { name := "a", urls := ["u"], healthURL := "", active := true })] "b").1 (by decide)

/-! ## C2 — round-robin fairness -/

lemma roundRobin_ok (lb : Counters) (svc : Service)
    (h : svc.urls.length ≠ 0) :
    roundRobin lb svc = Except.ok
      (svc.urls.get ⟨Counters.read lb svc.name % svc.urls.length,
        Nat.mod_lt _ (Nat.pos_of_ne_zero h)⟩,
       Counters.write lb svc.name
         ((Counters.read lb svc.name + 1) % svc.urls.length)) := by
  unfold roundRobin
  rw [dif_neg h]

lemma get_eq_of_idx {l : List String} {i j : Nat} (hi : i < l.length)
    (hj : j < l.length) (hij : i = j) : l.get ⟨i, hi⟩ = l.get ⟨j, hj⟩ := by
  cases hij
  rfl

/-- The `n` URLs selected by `n` consecutive `RoundRobin` calls, starting
from stored cursor value `c`, are `urls[(c + i) % len]` for
`i = 0 … n-1`. -/
lemma selectN_fst (svc : Service) (hpos : 0 < svc.urls.length) :
    ∀ (n : Nat) (lb : Counters),
      (selectN n lb svc).1 = (List.range n).map (fun i =>
        svc.urls.get ⟨(Counters.read lb svc.name + i) % svc.urls.length,
          Nat.mod_lt _ hpos⟩) := by
  intro n
  induction n with
  | zero => intro lb; simp [selectN]
  | succ m ih =>
    intro lb
    have hne : svc.urls.length ≠ 0 := Nat.pos_iff_ne_zero.mp hpos
    rw [selectN, roundRobin_ok lb svc hne]
    simp only []
    rw [List.range_succ_eq_map, List.map_cons, List.map_map]
    refine List.cons_eq_cons.mpr ⟨?_, ?_⟩
    · exact get_eq_of_idx _ _ (by simp)
    · rw [ih]
      refine List.map_congr_left ?_
      intro i _
      refine get_eq_of_idx _ _ ?_
      rw [counters_read_write, Nat.mod_add_mod]
      congr 1
      omega

/-- C2: for a service with `k ≥ 1` instances and a stored cursor
`c ∈ [0, k)`, `k` consecutive `RoundRobin` calls return exactly the URL
list rotated to start at position `c` (hence every instance exactly once,
in list order, wrapping), and the `(k+1)`th call returns the same URL as
the first of those `k` calls. -/
theorem c2_round_robin_cycle (svc : Service) (lb : Counters)
    (hpos : 0 < svc.urls.length)
    (hc : Counters.read lb svc.name < svc.urls.length) :
    (selectN svc.urls.length lb svc).1 =
      svc.urls.rotate (Counters.read lb svc.name) ∧
    (selectN svc.urls.length lb svc).1.Perm svc.urls ∧
    (selectN (svc.urls.length + 1) lb svc).1 =
      (selectN svc.urls.length lb svc).1 ++
        [svc.urls.get ⟨Counters.read lb svc.name, hc⟩] ∧
    (selectN svc.urls.length lb svc).1.head? =
      some (svc.urls.get ⟨Counters.read lb svc.name, hc⟩) := by
  have hA : (selectN svc.urls.length lb svc).1 =
      svc.urls.rotate (Counters.read lb svc.name) := by
    rw [selectN_fst svc hpos svc.urls.length lb]
    refine List.ext_get ?_ ?_
    · simp [List.length_rotate]
    · intro i h1 h2
      rw [List.get_map, List.get_rotate]
      refine get_eq_of_idx _ _ ?_
      congr 1
      simp only [List.get_range]
      omega
  refine ⟨hA, ?_, ?_, ?_⟩
  · rw [hA]
    exact List.rotate_perm _ _
  · rw [selectN_fst svc hpos (svc.urls.length + 1) lb,
      selectN_fst svc hpos svc.urls.length lb, List.range_succ, List.map_append,
      List.map_cons, List.map_nil]
    refine congrArg _ ?_
    refine congrArg (fun x => [x]) ?_
    refine get_eq_of_idx _ _ ?_
    rw [Nat.add_mod_right, Nat.mod_eq_of_lt hc]
  · rw [selectN_fst svc hpos svc.urls.length lb]
    have hr0 : (List.range svc.urls.length).head? = some 0 := by
      obtain ⟨m, hm⟩ : ∃ m, svc.urls.length = m + 1 :=
        ⟨svc.urls.length - 1, by omega⟩
      rw [hm, List.range_succ_eq_map]
      rfl
    rw [List.head?_map, hr0, Option.map_some']
    refine congrArg some ?_
    refine get_eq_of_idx _ _ ?_
    rw [Nat.add_zero, Nat.mod_eq_of_lt hc]

/-- C2 witness: the cycle theorem applied to a three-instance service
with stored cursor 1: the three selections are `["b", "c", "a"]` and the
fourth selection repeats `"b"`. -/
theorem c2_round_robin_cycle_witness :
    (selectN 3 [("s", 1)] { name := "s", urls := ["a", "b", "c"], healthURL := "", active := true }).1 =
      (["a", "b", "c"] : List String).rotate 1 :=
  (c2_round_robin_cycle
    { name := "s", urls := ["a", "b", "c"], healthURL := "", active := true }
    [("s", 1)] (by decide) (by decide)).1

/-! ## C4, C10 — token-bucket rate limiter -/

lemma goInt_intCast (n : ℤ) : goInt ((n : ℚ)) = n := by
  unfold goInt
  split <;> simp

lemma goInt_mathCeil (q : ℚ) : goInt (mathCeil q) = ⌈q⌉ := by
  unfold mathCeil
  exact goInt_intCast _

lemma goInt_of_nonneg (q : ℚ) (h : 0 ≤ q) : goInt q = ⌊q⌋ := by
  unfold goInt
  exact if_pos h

/-- C4: the rate limiter initialises an unseen key's bucket with
`capacity - 1` tokens and the current timestamp and admits; on a seen key
with parsable fields it computes
`tokens = min(capacity, stored + elapsed * (capacity / windowSeconds))`,
rejects with `Retry-After = ⌈(1 - tokens) / refillRate⌉` exactly when
`tokens < 1`, and otherwise consumes one token, persists the new count
and timestamp, and reports `remaining = ⌊tokens - 1⌋` (Go's `int`
truncation coincides with the floor because the new count is
non-negative). -/
theorem c4_token_bucket_behaviour (cfg : RateLimitConfig) (now ts : Int)
    (t rate tokens : ℚ)
    (hrate : rate = (cfg.requests : ℚ) / cfg.windowSeconds)
    (htok : tokens = min ((cfg.requests : ℚ)) (t + ((now - ts : Int) : ℚ) * rate)) :
    rateLimiter cfg none now =
      (RLDecision.admitNew,
       some { tokens := ((cfg.requests - 1 : Int) : ℚ), timestamp := now }) ∧
    (tokens < 1 →
      rateLimiter cfg (some { tokens := some t, timestamp := some ts }) now =
        (RLDecision.reject ⌈(1 - tokens) / rate⌉ (now + ⌈(1 - tokens) / rate⌉),
         none)) ∧
    (1 ≤ tokens →
      rateLimiter cfg (some { tokens := some t, timestamp := some ts }) now =
        (RLDecision.allowed ⌊tokens - 1⌋ (now + goInt cfg.windowSeconds),
         some { tokens := tokens - 1, timestamp := now })) := by
  subst hrate
  subst htok
  refine ⟨rfl, ?_, ?_⟩
  · intro hlt
    simp only [rateLimiter, mathMin, Option.getD]
    rw [if_pos hlt, goInt_mathCeil]
  · intro hge
    simp only [rateLimiter, mathMin, Option.getD]
    rw [if_neg (not_lt.mpr hge), goInt_of_nonneg _ (by linarith)]

/-- C4 witness: the bucket theorem applied to a concrete exhausted bucket
(capacity 5, window 60 s, zero stored tokens, no elapsed time): the
request is rejected with `Retry-After` 12 and reset 1012. -/
theorem c4_token_bucket_behaviour_witness :
    rateLimiter { requests := 5, windowSeconds := 60 }
        (some { tokens := some 0, timestamp := some 1000 }) 1000 =
      (RLDecision.reject 12 1012, none) := by
  have h := (c4_token_bucket_behaviour { requests := 5, windowSeconds := 60 }
    1000 1000 0 (1 / 12) 0 (by norm_num) (by norm_num)).2.1 (by norm_num)
  exact h.trans (by norm_num)

/-- C10 counterexample: a bucket whose `tokens` field is unparsable but
whose `timestamp` field is valid and current parses to zero tokens with
zero elapsed time, and the request IS rejected (429, Retry-After 12) —
corrupt bucket data can cause a rejection. -/
theorem c10_counterexample_corrupt_tokens_rejected :
    (rateLimiter { requests := 5, windowSeconds := 60 }
        (some { tokens := none, timestamp := some 1000 }) 1000).1 =
      RLDecision.reject 12 1012 ∧
    (rateLimiter { requests := 5, windowSeconds := 60 }
        (some { tokens := none, timestamp := some 1000 }) 1000).1.isReject = true := by
  constructor
  · norm_num [rateLimiter, mathMin, mathCeil, goInt]
  · norm_num [rateLimiter, mathMin, mathCeil, goInt, RLDecision.isReject]

/-- C10 amended: parse failures are silently discarded and the fields
default to zero.  When the TIMESTAMP field is the unparsable one, elapsed
time is computed from the Unix epoch, the refill saturates the count at
capacity, and the request is admitted as if the bucket were full; but when
the tokens field is unparsable while the timestamp is valid and current,
the bucket is treated as empty and the request is rejected. -/
theorem c10_corrupt_fields_default_to_zero (cfg : RateLimitConfig) (now : Int)
    (hreq : 1 ≤ cfg.requests) (hwin : 0 < cfg.windowSeconds)
    (hnow : cfg.windowSeconds ≤ (now : ℚ)) :
    rateLimiter cfg (some { tokens := none, timestamp := none }) now =
      (RLDecision.allowed (cfg.requests - 1) (now + goInt cfg.windowSeconds),
       some { tokens := (cfg.requests : ℚ) - 1, timestamp := now }) ∧
    (rateLimiter cfg (some { tokens := none, timestamp := some now }) now).1.isReject =
      true ∧
    (rateLimiter cfg (some { tokens := none, timestamp := some now }) now).2 = none := by
  have hcap : (0 : ℚ) < (cfg.requests : ℚ) := by
    have : (0 : Int) < cfg.requests := by omega
    exact_mod_cast this
  constructor
  · have hsat : (cfg.requests : ℚ) ≤
        ((now - 0 : Int) : ℚ) * ((cfg.requests : ℚ) / cfg.windowSeconds) := by
      push_cast
      rw [sub_zero]
      calc (cfg.requests : ℚ)
          = cfg.windowSeconds * ((cfg.requests : ℚ) / cfg.windowSeconds) := by
            field_simp
        _ ≤ (now : ℚ) * ((cfg.requests : ℚ) / cfg.windowSeconds) := by
            apply mul_le_mul_of_nonneg_right hnow
            positivity
    have hmin : mathMin ((cfg.requests : ℚ))
        ((0 : ℚ) + ((now - 0 : Int) : ℚ) * ((cfg.requests : ℚ) / cfg.windowSeconds)) =
        (cfg.requests : ℚ) := by
      unfold mathMin
      rw [zero_add]
      exact min_eq_left hsat
    have hone : (1 : ℚ) ≤ (cfg.requests : ℚ) := by
      have : (1 : Int) ≤ cfg.requests := hreq
      exact_mod_cast this
    simp only [rateLimiter, Option.getD]
    rw [hmin, if_neg (not_lt.mpr hone), goInt_of_nonneg _ (by linarith)]
    have hfloor : ⌊(cfg.requests : ℚ) - 1⌋ = cfg.requests - 1 := by
      rw [show (cfg.requests : ℚ) - 1 = ((cfg.requests - 1 : Int) : ℚ) by push_cast; ring]
      exact Int.floor_intCast _
    rw [hfloor]
  · have hmin0 : mathMin ((cfg.requests : ℚ))
        ((0 : ℚ) + ((now - now : Int) : ℚ) * ((cfg.requests : ℚ) / cfg.windowSeconds)) =
        (0 : ℚ) := by
      unfold mathMin
      simp only [sub_self, Int.cast_zero, zero_mul, add_zero, zero_add]
      exact min_eq_right (le_of_lt hcap)
    constructor
    · simp only [rateLimiter, Option.getD]
      rw [hmin0, if_pos (by norm_num)]
      rfl
    · simp only [rateLimiter, Option.getD]
      rw [hmin0, if_pos (by norm_num)]

/-- C10 witness: the amended theorem at capacity 5, window 60 s, Unix
time 1000: the doubly-corrupt bucket admits with a full bucket
(remaining 4), while the corrupt-tokens bucket rejects. -/
theorem c10_corrupt_fields_default_to_zero_witness :
    rateLimiter { requests := 5, windowSeconds := 60 }
        (some { tokens := none, timestamp := none }) 1000 =
      (RLDecision.allowed 4 1060, some { tokens := 4, timestamp := 1000 }) := by
  have h := (c10_corrupt_fields_default_to_zero { requests := 5, windowSeconds := 60 }
    1000 (by norm_num) (by norm_num) (by norm_num)).1
  exact h.trans (by norm_num [goInt])

/-! ## C7, C8 — header forwarding

ASCII case-folding facts about `Char.toLower`/`Char.toUpper`, used to show
that MIME canonicalisation never changes a header name's case-insensitive
identity. -/

lemma char_toNat_ofNat (n : Nat) (h : n.isValidChar) :
    (Char.ofNat n).toNat = n := by
  unfold Char.ofNat
  rw [dif_pos h]
  rfl

lemma char_toLower_toUpper (c : Char) : c.toUpper.toLower = c.toLower := by
  unfold Char.toUpper
  by_cases h : 97 ≤ c.toNat ∧ c.toNat ≤ 122
  · rw [if_pos h]
    have hv : (c.toNat - 32).isValidChar := Or.inl (by omega)
    unfold Char.toLower
    rw [char_toNat_ofNat _ hv]
    rw [if_pos (by omega : 65 ≤ c.toNat - 32 ∧ c.toNat - 32 ≤ 90)]
    rw [if_neg (by omega : ¬ (65 ≤ c.toNat ∧ c.toNat ≤ 90))]
    rw [(by omega : c.toNat - 32 + 32 = c.toNat)]
    exact Char.ofNat_toNat c
  · rw [if_neg h]

lemma char_toLower_toLower (c : Char) : c.toLower.toLower = c.toLower := by
  by_cases h : 65 ≤ c.toNat ∧ c.toNat ≤ 90
  · have h1 : c.toLower = Char.ofNat (c.toNat + 32) := by
      unfold Char.toLower
      rw [if_pos h]
    have hv : (c.toNat + 32).isValidChar := Or.inl (by omega)
    rw [h1]
    unfold Char.toLower
    rw [char_toNat_ofNat _ hv]
    rw [if_neg (by omega : ¬ (65 ≤ c.toNat + 32 ∧ c.toNat + 32 ≤ 90))]
  · have h1 : c.toLower = c := by
      unfold Char.toLower
      rw [if_neg h]
    rw [h1, h1]

/-- Canonicalisation only changes letter case, so the lowercase image of
a canonicalised key is the lowercase image of the original key. -/
lemma canonicalKey_toLower (s : String) :
    (canonicalKey s).toList.map Char.toLower = s.toList.map Char.toLower := by
  unfold canonicalKey
  by_cases h : s.toList.all validHeaderFieldChar
  · rw [if_pos h]
    have main : ∀ (cs : List Char) (acc : List Char × Bool),
        ((cs.foldl canonicalStep acc).1).map Char.toLower =
          acc.1.map Char.toLower ++ cs.map Char.toLower := by
      intro cs
      induction cs with
      | nil => intro acc; simp
      | cons c rest ih =>
        intro acc
        rw [List.foldl_cons]
        rw [ih]
        show (acc.1 ++ [if acc.2 then c.toUpper else c.toLower]).map Char.toLower ++
            rest.map Char.toLower = acc.1.map Char.toLower ++ (c :: rest).map Char.toLower
        rw [List.map_append, List.map_cons, List.append_assoc]
        refine congrArg _ ?_
        have hc : (if acc.2 then c.toUpper else c.toLower).toLower = c.toLower := by
          by_cases hf : acc.2
          · rw [if_pos hf]
            exact char_toLower_toUpper c
          · rw [if_neg hf]
            exact char_toLower_toLower c
        simp [hc]
    show ((s.toList.foldl canonicalStep ([], true)).1).map Char.toLower =
      s.toList.map Char.toLower
    rw [main s.toList ([], true)]
    rfl
  · rw [if_neg h]

/-- Canonicalisation does not change whether a key is hop-by-hop. -/
lemma isHopByHopHeader_canonicalKey (s : String) :
    isHopByHopHeader (canonicalKey s) = isHopByHopHeader s := by
  unfold isHopByHopHeader eqFoldAscii
  simp only [canonicalKey_toLower]

lemma foldl_headerAdd_present (k : String) :
    ∀ (vs : List String) (acc : Header) (u : List String),
      List.find? (fun p => p.1 = canonicalKey k) acc = none →
      vs.foldl (fun a v => headerAdd a k v) (acc ++ [(canonicalKey k, u)]) =
        acc ++ [(canonicalKey k, u ++ vs)] := by
  intro vs
  induction vs with
  | nil =>
    intro acc u h
    simp
  | cons v rest ih =>
    intro acc u h
    rw [List.foldl_cons]
    have hfind : List.find? (fun p => p.1 = canonicalKey k)
        (acc ++ [(canonicalKey k, u)]) = some (canonicalKey k, u) := by
      rw [List.find?_append, h]
      simp [List.find?]
    have hmap : ∀ p ∈ acc,
        (fun p : String × List String =>
          if p.1 = canonicalKey k then (p.1, p.2 ++ [v]) else p) p = p := by
      intro p hp
      have hne : ¬ (p.1 = canonicalKey k) := by
        intro he
        have := List.find?_eq_none.mp h p hp
        simp [he] at this
      simp [hne]
    have hstep : headerAdd (acc ++ [(canonicalKey k, u)]) k v =
        acc ++ [(canonicalKey k, u ++ [v])] := by
      unfold headerAdd
      rw [if_pos (by rw [hfind]; rfl)]
      rw [List.map_append]
      refine congrArg₂ _ ?_ ?_
      · rw [List.map_congr_left hmap, List.map_id']
      · simp
    rw [hstep, ih acc (u ++ [v]) h, List.append_assoc]
    simp

lemma foldl_headerAdd_absent (k : String) (vs : List String) (acc : Header)
    (h : List.find? (fun p => p.1 = canonicalKey k) acc = none) (hvs : vs ≠ []) :
    vs.foldl (fun a v => headerAdd a k v) acc = acc ++ [(canonicalKey k, vs)] := by
  cases vs with
  | nil => cases hvs rfl
  | cons v rest =>
    rw [List.foldl_cons]
    have hstep : headerAdd acc k v = acc ++ [(canonicalKey k, [v])] := by
      unfold headerAdd
      rw [if_neg (by rw [h]; simp)]
    rw [hstep, foldl_headerAdd_present k rest acc [v] h]
    simp

/-- The header-copy loop, characterised: starting from `acc` whose keys
avoid the canonical keys of `l`, and with `l`'s canonical keys pairwise
distinct, the copy appends one entry `(canonical key, values)` per
non-hop-by-hop entry of `l` with a non-empty value list, in order. -/
lemma copyHeaders_fold (l : List (String × List String)) :
    ∀ acc : Header,
      (∀ p ∈ l, List.find? (fun q => q.1 = canonicalKey p.1) acc = none) →
      (l.map (fun p => canonicalKey p.1)).Nodup →
      l.foldl (fun acc p => if isHopByHopHeader p.1 then acc
        else p.2.foldl (fun a v => headerAdd a p.1 v) acc) acc =
      acc ++ (l.filter (fun p => !isHopByHopHeader p.1 && !p.2.isEmpty)).map
        (fun p => (canonicalKey p.1, p.2)) := by
  induction l with
  | nil =>
    intro acc _ _
    simp
  | cons p rest ih =>
    intro acc hmem hnd
    have hnd' : (rest.map (fun q => canonicalKey q.1)).Nodup :=
      (List.nodup_cons.mp hnd).2
    have hnotmem : canonicalKey p.1 ∉ rest.map (fun q => canonicalKey q.1) :=
      (List.nodup_cons.mp hnd).1
    rw [List.foldl_cons]
    by_cases hhop : isHopByHopHeader p.1
    · rw [if_pos hhop]
      rw [ih acc (fun q hq => hmem q (List.mem_cons_of_mem _ hq)) hnd']
      have : (List.filter (fun q => !isHopByHopHeader q.1 && !q.2.isEmpty) (p :: rest)) =
          List.filter (fun q => !isHopByHopHeader q.1 && !q.2.isEmpty) rest := by
        rw [List.filter_cons]
        simp [hhop]
      rw [this]
    · rw [if_neg hhop]
      by_cases hemp : p.2 = []
      · rw [hemp, List.foldl_nil]
        rw [ih acc (fun q hq => hmem q (List.mem_cons_of_mem _ hq)) hnd']
        have : (List.filter (fun q => !isHopByHopHeader q.1 && !q.2.isEmpty) (p :: rest)) =
            List.filter (fun q => !isHopByHopHeader q.1 && !q.2.isEmpty) rest := by
          rw [List.filter_cons]
          simp [hemp]
        rw [this]
      · rw [foldl_headerAdd_absent p.1 p.2 acc (hmem p (List.mem_cons_self _ _)) hemp]
        have hmem' : ∀ q ∈ rest, List.find? (fun x => x.1 = canonicalKey q.1)
            (acc ++ [(canonicalKey p.1, p.2)]) = none := by
          intro q hq
          rw [List.find?_append, hmem q (List.mem_cons_of_mem _ hq)]
          have hne : ¬ (canonicalKey p.1 = canonicalKey q.1) := by
            intro he
            exact hnotmem (he ▸ List.mem_map_of_mem (fun x => canonicalKey x.1) hq)
          simp [List.find?, hne]
        rw [ih (acc ++ [(canonicalKey p.1, p.2)]) hmem' hnd']
        have : (List.filter (fun q => !isHopByHopHeader q.1 && !q.2.isEmpty) (p :: rest)) =
            p :: List.filter (fun q => !isHopByHopHeader q.1 && !q.2.isEmpty) rest := by
          rw [List.filter_cons]
          simp [hhop, hemp]
        rw [this, List.map_cons, List.append_assoc]
        rfl

lemma headerAdd_mem (h : Header) (k v : String) :
    ∀ p ∈ headerAdd h k v, p.1 = canonicalKey k ∨ ∃ q ∈ h, p.1 = q.1 := by
  intro p hp
  unfold headerAdd at hp
  by_cases hs : (List.find? (fun q => q.1 = canonicalKey k) h).isSome
  · rw [if_pos hs] at hp
    obtain ⟨q, hq, hpq⟩ := List.mem_map.mp hp
    by_cases hqk : q.1 = canonicalKey k
    · rw [if_pos hqk] at hpq
      exact Or.inl (hpq ▸ hqk)
    · rw [if_neg hqk] at hpq
      exact Or.inr ⟨q, hq, hpq ▸ rfl⟩
  · rw [if_neg hs] at hp
    rcases List.mem_append.mp hp with hin | hone
    · exact Or.inr ⟨p, hin, rfl⟩
    · simp at hone
      exact Or.inl (by rw [hone])

lemma foldl_headerAdd_keys (k : String) (hk : isHopByHopHeader k = false) :
    ∀ (vs : List String) (acc : Header),
      (∀ p ∈ acc, isHopByHopHeader p.1 = false) →
      ∀ p ∈ vs.foldl (fun a v => headerAdd a k v) acc,
        isHopByHopHeader p.1 = false := by
  intro vs
  induction vs with
  | nil => intro acc hacc; exact hacc
  | cons v rest ih =>
    intro acc hacc
    rw [List.foldl_cons]
    refine ih (headerAdd acc k v) ?_
    intro p hp
    rcases headerAdd_mem acc k v p hp with hck | ⟨q, hq, hpq⟩
    · rw [hck, isHopByHopHeader_canonicalKey]
      exact hk
    · rw [hpq]
      exact hacc q hq

/-- Every key in the copied header set is non-hop-by-hop. -/
lemma copyHeaders_keys (inbound : Header) :
    ∀ p ∈ copyHeaders inbound, isHopByHopHeader p.1 = false := by
  unfold copyHeaders
  have main : ∀ (l : List (String × List String)) (acc : Header),
      (∀ p ∈ acc, isHopByHopHeader p.1 = false) →
      ∀ p ∈ l.foldl (fun acc p => if isHopByHopHeader p.1 then acc
        else p.2.foldl (fun a v => headerAdd a p.1 v) acc) acc,
        isHopByHopHeader p.1 = false := by
    intro l
    induction l with
    | nil => intro acc hacc; exact hacc
    | cons q rest ih =>
      intro acc hacc
      rw [List.foldl_cons]
      by_cases hhop : isHopByHopHeader q.1
      · rw [if_pos hhop]
        exact ih acc hacc
      · rw [if_neg hhop]
        refine ih _ ?_
        exact foldl_headerAdd_keys q.1 (Bool.not_eq_true _ ▸ eq_false_of_ne_true hhop) q.2 acc hacc
  intro p hp
  exact main inbound [] (by intro p hp; cases hp) p hp

lemma headerSet_keys (h : Header) (k v : String)
    (hk : isHopByHopHeader (canonicalKey k) = false)
    (hh : ∀ p ∈ h, isHopByHopHeader p.1 = false) :
    ∀ p ∈ headerSet h k v, isHopByHopHeader p.1 = false := by
  intro p hp
  unfold headerSet at hp
  rcases List.mem_append.mp hp with hin | hone
  · exact hh p (List.mem_of_mem_filter hin)
  · simp at hone
    rw [hone]
    exact hk

lemma headerGet_headerSet_self (h : Header) (key value : String) :
    headerGet (headerSet h key value) key = some [value] := by
  unfold headerGet headerSet
  rw [List.find?_append, find_filter_self]
  simp [List.find?]

lemma headerGet_headerSet_other (h : Header) (key value a : String)
    (hne : canonicalKey a ≠ canonicalKey key) :
    headerGet (headerSet h key value) a = headerGet h a := by
  unfold headerGet headerSet
  rw [List.find?_append, find_filter_ne _ _ _ hne]
  cases hfa : List.find? (fun p => p.1 = canonicalKey a) h with
  | none => simp [List.find?, Ne.symm hne]
  | some q => simp

lemma find_of_nodup {β : Type} (l : List (String × β))
    (hnd : (l.map Prod.fst).Nodup) (a : String) (b : β) (hmem : (a, b) ∈ l) :
    List.find? (fun p => p.1 = a) l = some (a, b) := by
  induction l with
  | nil => cases hmem
  | cons p rest ih =>
    rcases List.mem_cons.mp hmem with heq | hin
    · rw [← heq]
      simp [List.find?]
    · have hpa : ¬ (p.1 = a) := by
        intro he
        have hmem' : a ∈ rest.map Prod.fst :=
          List.mem_map.mpr ⟨(a, b), hin, rfl⟩
        exact (List.nodup_cons.mp hnd).1 (he ▸ hmem')
      rw [List.find?_cons_of_neg _ (by simpa using hpa)]
      exact ih (List.nodup_cons.mp hnd).2 hin

lemma filter_filter_ne {β : Type} (l : List (String × β)) (a b : String)
    (hab : a ≠ b) :
    (l.filter (fun p => p.1 ≠ b)).filter (fun p => p.1 = a) =
      l.filter (fun p => p.1 = a) := by
  induction l with
  | nil => simp
  | cons p t ih =>
    by_cases hpb : p.1 = b
    · have hpa : ¬ (p.1 = a) := fun h => hab (h ▸ hpb)
      simp only [List.filter_cons]
      rw [if_neg (by simpa using hpb), if_neg (by simpa using hpa)]
      exact ih
    · simp only [List.filter_cons]
      rw [if_pos (by simpa using hpb)]
      rw [List.filter_cons]
      by_cases hpa : p.1 = a
      · rw [if_pos (by simpa using hpa), if_pos (by simpa using hpa), ih]
      · rw [if_neg (by simpa using hpa), if_neg (by simpa using hpa), ih]

lemma filter_filter_self {β : Type} (l : List (String × β)) (a : String) :
    (l.filter (fun p => p.1 ≠ a)).filter (fun p => p.1 = a) = [] := by
  rw [List.filter_eq_nil_iff]
  intro x hx
  have := List.mem_filter.mp hx
  simpa using this.2

lemma filter_key_headerSet_self (h : Header) (key value : String) :
    (headerSet h key value).filter (fun p => p.1 = canonicalKey key) =
      [(canonicalKey key, [value])] := by
  unfold headerSet
  rw [List.filter_append, filter_filter_self]
  simp [List.filter]

lemma filter_key_headerSet_other (h : Header) (key value a : String)
    (hne : a ≠ canonicalKey key) :
    (headerSet h key value).filter (fun p => p.1 = a) =
      h.filter (fun p => p.1 = a) := by
  unfold headerSet
  rw [List.filter_append, filter_filter_ne _ _ _ hne]
  have : List.filter (fun p : String × List String => p.1 = a)
      [(canonicalKey key, [value])] = [] := by
    simp [List.filter, Ne.symm hne]
  rw [this, List.append_nil]

/-- C8: whatever the inbound request carried, the outbound header set has
exactly one `X-Forwarded-For` entry and its value is the client address:
a client-supplied `X-Forwarded-For` is overwritten, not appended to. -/
theorem c8_x_forwarded_for_is_client_ip (inbound : Header)
    (clientIP proto host : String) :
    headerGet (forwardHeaders inbound clientIP proto host) "X-Forwarded-For" =
      some [clientIP] ∧
    (forwardHeaders inbound clientIP proto host).filter
        (fun p => p.1 = "X-Forwarded-For") = [("X-Forwarded-For", [clientIP])] := by
  unfold forwardHeaders
  constructor
  · rw [headerGet_headerSet_other _ _ _ _ (by decide),
      headerGet_headerSet_other _ _ _ _ (by decide),
      headerGet_headerSet_self]
  · rw [filter_key_headerSet_other _ _ _ _ (by decide),
      filter_key_headerSet_other _ _ _ _ (by decide)]
    have h := filter_key_headerSet_self (copyHeaders inbound) "X-Forwarded-For" clientIP
    rw [(by decide : canonicalKey "X-Forwarded-For" = "X-Forwarded-For")] at h
    exact h

/-- C7 counterexample: an inbound `X-Forwarded-For: 9.9.9.9` is not
hop-by-hop, yet its value does not survive to the outbound request — the
handler overwrites it with the client address — so "every inbound header
outside the hop-by-hop set is copied with all its values" fails. -/
theorem c7_counterexample_x_forwarded_for_not_copied :
    isHopByHopHeader "X-Forwarded-For" = false ∧
    headerGet (forwardHeaders [("X-Forwarded-For", ["9.9.9.9"])]
        "1.1.1.1" "HTTP/1.1" "example.com") "X-Forwarded-For" = some ["1.1.1.1"] ∧
    headerGet (forwardHeaders [("X-Forwarded-For", ["9.9.9.9"])]
        "1.1.1.1" "HTTP/1.1" "example.com") "X-Forwarded-For" ≠ some ["9.9.9.9"] := by
  refine ⟨by decide, by decide, by decide⟩

/-- C7 amended: no hop-by-hop name (case-insensitively) ever appears on
the outbound request, and every inbound header outside the hop-by-hop set
whose canonical name is none of `X-Forwarded-For` / `X-Forwarded-Proto` /
`X-Forwarded-Host` is copied with all its values; those three names are
instead overwritten by the gateway. -/
theorem c7_hop_by_hop_stripped_rest_copied (inbound : Header)
    (clientIP proto host : String)
    (hnodup : (inbound.map (fun p => canonicalKey p.1)).Nodup) :
    (∀ p ∈ forwardHeaders inbound clientIP proto host,
      isHopByHopHeader p.1 = false) ∧
    (∀ k, isHopByHopHeader k = true →
      headerGet (forwardHeaders inbound clientIP proto host) k = none) ∧
    (∀ (k : String) (vs : List String), (k, vs) ∈ inbound →
      isHopByHopHeader k = false → vs ≠ [] →
      canonicalKey k ≠ "X-Forwarded-For" →
      canonicalKey k ≠ "X-Forwarded-Proto" →
      canonicalKey k ≠ "X-Forwarded-Host" →
      headerGet (forwardHeaders inbound clientIP proto host) k = some vs) := by
  have hkeys : ∀ p ∈ forwardHeaders inbound clientIP proto host,
      isHopByHopHeader p.1 = false := by
    unfold forwardHeaders
    refine headerSet_keys _ _ _ (by decide) ?_
    refine headerSet_keys _ _ _ (by decide) ?_
    refine headerSet_keys _ _ _ (by decide) ?_
    exact copyHeaders_keys inbound
  refine ⟨hkeys, ?_, ?_⟩
  · intro k hk
    have hnone : List.find? (fun p => p.1 = canonicalKey k)
        (forwardHeaders inbound clientIP proto host) = none := by
      rw [List.find?_eq_none]
      intro x hx he
      have h1 : isHopByHopHeader x.1 = false := hkeys x hx
      have h2 : x.1 = canonicalKey k := by simpa using he
      rw [h2, isHopByHopHeader_canonicalKey, hk] at h1
      cases h1
    unfold headerGet
    rw [hnone]
    rfl
  · intro k vs hmem hhop hvs hf hp hh
    unfold forwardHeaders
    rw [headerGet_headerSet_other _ _ _ _ (by rw [(by decide :
        canonicalKey "X-Forwarded-Host" = "X-Forwarded-Host")]; exact hh)]
    rw [headerGet_headerSet_other _ _ _ _ (by rw [(by decide :
        canonicalKey "X-Forwarded-Proto" = "X-Forwarded-Proto")]; exact hp)]
    rw [headerGet_headerSet_other _ _ _ _ (by rw [(by decide :
        canonicalKey "X-Forwarded-For" = "X-Forwarded-For")]; exact hf)]
    have hch : copyHeaders inbound =
        (inbound.filter (fun p => !isHopByHopHeader p.1 && !p.2.isEmpty)).map
          (fun p => (canonicalKey p.1, p.2)) := by
      unfold copyHeaders
      rw [copyHeaders_fold inbound [] (by intro p hp; rfl) hnodup]
      rfl
    rw [hch]
    have hnd' : (((inbound.filter
        (fun p => !isHopByHopHeader p.1 && !p.2.isEmpty)).map
          (fun p => (canonicalKey p.1, p.2))).map Prod.fst).Nodup := by
      rw [List.map_map]
      refine List.Nodup.sublist ?_ hnodup
      exact List.Sublist.map _ (List.filter_sublist _)
    have hmem' : (canonicalKey k, vs) ∈
        (inbound.filter (fun p => !isHopByHopHeader p.1 && !p.2.isEmpty)).map
          (fun p => (canonicalKey p.1, p.2)) := by
      refine List.mem_map.mpr ⟨(k, vs), ?_, rfl⟩
      refine List.mem_filter.mpr ⟨hmem, ?_⟩
      simp [hhop, hvs]
    unfold headerGet
    rw [find_of_nodup _ hnd' (canonicalKey k) vs hmem']
    rfl

/-- C7 witness: the amended theorem on a concrete inbound header set — the
`Accept` values survive unchanged and `Connection` is stripped. -/
theorem c7_hop_by_hop_stripped_rest_copied_witness :
    headerGet (forwardHeaders [("Accept", ["a", "b"]), ("Connection", ["keep-alive"])]
        "1.1.1.1" "HTTP/1.1" "h") "Accept" = some ["a", "b"] ∧
    headerGet (forwardHeaders [("Accept", ["a", "b"]), ("Connection", ["keep-alive"])]
        "1.1.1.1" "HTTP/1.1" "h") "Connection" = none :=
  ⟨(c7_hop_by_hop_stripped_rest_copied
      [("Accept", ["a", "b"]), ("Connection", ["keep-alive"])] "1.1.1.1" "HTTP/1.1" "h"
      (by decide)).2.2 "Accept" ["a", "b"]
      (by decide) (by decide) (by decide) (by decide) (by decide) (by decide),
   (c7_hop_by_hop_stripped_rest_copied
      [("Accept", ["a", "b"]), ("Connection", ["keep-alive"])] "1.1.1.1" "HTTP/1.1" "h"
      (by decide)).2.1 "Connection" (by decide)⟩
end Gateway
